import Mathlib

/-!
# Verification of the typed-python-starter matrix core

Shallow embedding of `src/typed_app/models.py` (the `Matrix` record) and
`src/typed_app/functions.py` (`multiply_matrices`, `create_identity_matrix`,
`matrix_determinant`). Matrix entries (Python `float` literals, used here
only with exact small values) are modelled as rationals `ℚ`. Python
exceptions are modelled by `Except`: the `ValueError`s that the spec's error
taxonomy calls `ShapeError` and `InvalidSizeError` become the corresponding
constructors of `MatrixError`, carrying the source's message strings.
-/

namespace TypedApp

/-- Error taxonomy of the spec (§7): shape mismatches and bad identity sizes.
The source raises `ValueError` with the messages recorded here. -/
inductive MatrixError where
  | shapeError (msg : String)
  | invalidSizeError (msg : String)
deriving DecidableEq, Repr

/-- `Matrix` from `models.py`: a frozen dataclass holding `data`, a row-major
grid. Validation lives in the constructor (`Matrix.mk?` below), mirroring
`__post_init__`; a raw `Matrix` value only wraps the grid. -/
structure Matrix where
  data : List (List ℚ)
deriving DecidableEq, Repr

/-- `Matrix.rows`: `len(self.data)`. -/
def Matrix.rows (m : Matrix) : Nat := m.data.length

/-- `Matrix.cols`: `len(self.data[0]) if self.data else 0`. -/
def Matrix.cols (m : Matrix) : Nat :=
  if m.data.isEmpty then 0 else (m.data.headD []).length

/-- The check performed by `Matrix.__post_init__`: the grid is non-empty and
every row has the first row's length. -/
def rectangular (data : List (List ℚ)) : Bool :=
  !data.isEmpty && data.all (fun row => row.length = (data.headD []).length)

/-- The `Matrix` constructor, `__init__` + `__post_init__`: raises
`ValueError` ("ShapeError" in the spec's taxonomy) on an empty grid, then on
a row whose length differs from the first row's. -/
def Matrix.mk? (data : List (List ℚ)) : Except MatrixError Matrix :=
  if data.isEmpty then
    .error (.shapeError "Matrix cannot be empty")
  else if data.all (fun row => row.length = (data.headD []).length) then
    .ok ⟨data⟩
  else
    .error (.shapeError "All rows must have the same length")

/-- A valid `Matrix` value: one whose grid passes the constructor's check.
Every `Matrix` object that exists at runtime in the source satisfies this. -/
def Matrix.valid (m : Matrix) : Prop := rectangular m.data = true

instance (m : Matrix) : Decidable m.valid := by
  unfold Matrix.valid; infer_instance

/-- `Matrix.transpose`:
`transposed_data = [[self.data[j][i] for j in range(self.rows)] for i in range(self.cols)]`
followed by the `Matrix(...)` constructor (which can raise, e.g. when
`transposed_data` is empty because `cols == 0`). Python's in-bounds indexing
`self.data[j][i]` is rendered with `getD` defaults that are never hit for a
valid matrix (`j < rows`, and `i < cols` = each row's length). -/
def Matrix.transpose (m : Matrix) : Except MatrixError Matrix :=
  Matrix.mk? ((List.range m.cols).map (fun i =>
    (List.range m.rows).map (fun j => (m.data.getD j []).getD i 0)))

/-- `Matrix.__add__`: raises on a shape mismatch, otherwise builds the
pairwise sum grid and passes it to the constructor. -/
def Matrix.add (m other : Matrix) : Except MatrixError Matrix :=
  if m.rows ≠ other.rows ∨ m.cols ≠ other.cols then
    .error (.shapeError "Cannot add matrices of different sizes")
  else
    Matrix.mk? ((List.range m.rows).map (fun i =>
      (List.range m.cols).map (fun j =>
        (m.data.getD i []).getD j 0 + (other.data.getD i []).getD j 0)))

/-- `Matrix.__mul__` (scalar multiplication): builds the scaled grid and
passes it to the constructor. -/
def Matrix.scale (m : Matrix) (scalar : ℚ) : Except MatrixError Matrix :=
  Matrix.mk? ((List.range m.rows).map (fun i =>
    (List.range m.cols).map (fun j => (m.data.getD i []).getD j 0 * scalar)))

/-- `multiply_matrices` from `functions.py`: raises when
`matrix1.cols != matrix2.rows`, otherwise the triple loop
`element = sum(matrix1.data[i][k] * matrix2.data[k][j] for k in range(matrix1.cols))`
over `i in range(matrix1.rows)`, `j in range(matrix2.cols)`. -/
def multiply_matrices (matrix1 matrix2 : Matrix) : Except MatrixError Matrix :=
  if matrix1.cols ≠ matrix2.rows then
    .error (.shapeError "Cannot multiply matrices: number of columns in first matrix must equal number of rows in second matrix")
  else
    Matrix.mk? ((List.range matrix1.rows).map (fun i =>
      (List.range matrix2.cols).map (fun j =>
        ((List.range matrix1.cols).map (fun k =>
          (matrix1.data.getD i []).getD k 0 * (matrix2.data.getD k []).getD j 0)).sum)))

/-- `create_identity_matrix` from `functions.py`: raises for `size < 1`,
otherwise builds the `size x size` grid with 1 on the diagonal. `size` is a
Python `int`, hence `Int` here. -/
def create_identity_matrix (size : Int) : Except MatrixError Matrix :=
  if size < 1 then
    .error (.invalidSizeError "Matrix size must be at least 1")
  else
    Matrix.mk? ((List.range size.toNat).map (fun i =>
      (List.range size.toNat).map (fun j => if i = j then (1 : ℚ) else 0)))

/-- One iteration of the `for col in range(matrix.cols)` loop of
`matrix_determinant`, with `detRec` standing for the recursive call: build
the submatrix grid by dropping row 0 and, in each remaining row, the entry at
column `col` (`[matrix.data[i][j] for j in range(matrix.cols) if j != col]`);
run it through the `Matrix` constructor; recurse; then add the cofactor for
even `col` and subtract it for odd `col`. An error (a raised exception in the
source) propagates through `Except.bind`, aborting the remaining
iterations. -/
def detStep (detRec : Matrix → Except MatrixError ℚ) (m : Matrix)
    (acc : Except MatrixError ℚ) (col : ℕ) : Except MatrixError ℚ :=
  acc.bind (fun det =>
    (Matrix.mk? ((m.data.drop 1).map (fun row =>
        ((List.range m.cols).filter (fun j => j ≠ col)).map
          (fun j => row.getD j 0)))).bind (fun submatrix =>
      (detRec submatrix).bind (fun subdet =>
        let cofactor := (m.data.headD []).getD col 0 * subdet
        .ok (if col % 2 = 0 then det + cofactor else det - cofactor))))

/-- Recursion core of `matrix_determinant`. The fuel argument makes the
source's recursion (each call is on a matrix with one row fewer) structural;
`matrix_determinant` calls it with `fuel = m.rows`, and every recursive call
keeps `fuel = rows` exactly. The two arms share the body of the source
function; in the `fuel = 0` arm — reachable from `matrix_determinant` only
with `rows = cols = 0` — the cofactor branch returns `0.0`, the value the
source's `for col in range(cols)` loop produces there, since it runs zero
iterations and returns the accumulator. -/
def detAux : Nat → Matrix → Except MatrixError ℚ
  | 0, m =>
    if m.rows ≠ m.cols then
      .error (.shapeError "Determinant can only be calculated for square matrices")
    else if m.rows = 1 then
      .ok ((m.data.headD []).headD 0)
    else if m.rows = 2 then
      .ok ((m.data.headD []).headD 0 * ((m.data.drop 1).headD []).getD 1 0 -
           (m.data.headD []).getD 1 0 * ((m.data.drop 1).headD []).headD 0)
    else
      .ok 0
  | fuel' + 1, m =>
    if m.rows ≠ m.cols then
      .error (.shapeError "Determinant can only be calculated for square matrices")
    else if m.rows = 1 then
      .ok ((m.data.headD []).headD 0)
    else if m.rows = 2 then
      .ok ((m.data.headD []).headD 0 * ((m.data.drop 1).headD []).getD 1 0 -
           (m.data.headD []).getD 1 0 * ((m.data.drop 1).headD []).headD 0)
    else
      (List.range m.cols).foldl (detStep (detAux fuel') m) (Except.ok 0)

/-- `matrix_determinant` from `functions.py`: Laplace expansion along the
first row, with the recursion depth bounded by the row count. -/
def matrix_determinant (m : Matrix) : Except MatrixError ℚ :=
  detAux m.rows m

/-- Recursion core of `detSpec`, on the matrix order `n`. Taken from the
spec's words (§4.4): 1×1 gives the single element; 2×2 gives `a*d - b*c`;
for `n ≥ 3`, the sum over `col in [0, n)` of
`(-1)^col * m[0][col] * determinant(minor)`, the minor removing row 0 and
column `col`. The order-0 case is outside the spec (a valid matrix has at
least one row) and is set to 0. -/
def detSpecAux : Nat → List (List ℚ) → ℚ
  | 0, _ => 0
  | 1, g => (g.headD []).headD 0
  | 2, g => (g.headD []).headD 0 * ((g.drop 1).headD []).getD 1 0 -
            (g.headD []).getD 1 0 * ((g.drop 1).headD []).headD 0
  | n + 3, g =>
    ((List.range (n + 3)).map (fun col =>
      (-1 : ℚ) ^ col * (g.headD []).getD col 0 *
        detSpecAux (n + 2) ((g.drop 1).map (fun row => row.eraseIdx col)))).sum

/-- The determinant exactly as the spec describes it, on a raw square grid. -/
def detSpec (g : List (List ℚ)) : ℚ := detSpecAux g.length g

/-- Sample 2×2 matrix `[[1,2],[3,4]]` for concrete instantiations. -/
def M22 : Matrix := ⟨[[1, 2], [3, 4]]⟩

/-- Sample 2×2 matrix `[[5,6],[7,8]]` for concrete instantiations. -/
def B22 : Matrix := ⟨[[5, 6], [7, 8]]⟩

/-- Sample 2×3 matrix `[[1,2,3],[4,5,6]]` for concrete instantiations. -/
def M23 : Matrix := ⟨[[1, 2, 3], [4, 5, 6]]⟩

/-- Sample 3×3 matrix `[[1,2,3],[4,5,6],[7,8,9]]` for concrete
instantiations. -/
def M33 : Matrix := ⟨[[1, 2, 3], [4, 5, 6], [7, 8, 9]]⟩

/-- The 1×0 matrix `Matrix([[]])`: one row of length zero. The constructor
accepts it (the grid is non-empty and trivially rectangular). -/
def Mrow0 : Matrix := ⟨[[]]⟩

instance {ε α : Type} [DecidableEq ε] [DecidableEq α] : DecidableEq (Except ε α) := fun a b =>
  match a, b with
  | .error e, .error f =>
    if h : e = f then .isTrue (congrArg Except.error h)
    else .isFalse (fun hc => h (Except.error.inj hc))
  | .ok x, .ok y =>
    if h : x = y then .isTrue (congrArg Except.ok h)
    else .isFalse (fun hc => h (Except.ok.inj hc))
  | .error _, .ok _ => .isFalse (fun hc => Except.noConfusion hc)
  | .ok _, .error _ => .isFalse (fun hc => Except.noConfusion hc)

theorem Matrix.valid_iff (m : Matrix) :
    m.valid ↔ m.data ≠ [] ∧ ∀ row ∈ m.data, row.length = m.cols := by
  unfold Matrix.valid rectangular Matrix.cols
  rw [Bool.and_eq_true, List.all_eq_true]
  constructor
  · rintro ⟨h1, h2⟩
    have hne : m.data ≠ [] := by
      intro h; rw [h] at h1; simp at h1
    refine ⟨hne, fun row hrow => ?_⟩
    have := h2 row hrow
    simp only [decide_eq_true_eq] at this
    rw [this]
    simp [List.isEmpty_iff, hne]
  · rintro ⟨h1, h2⟩
    refine ⟨by simp [List.isEmpty_iff, h1], fun row hrow => ?_⟩
    have := h2 row hrow
    simp only [decide_eq_true_eq]
    rw [this]
    simp [List.isEmpty_iff, h1]

theorem Matrix.mk?_ok_iff (data : List (List ℚ)) (m : Matrix) :
    Matrix.mk? data = .ok m ↔ rectangular data = true ∧ m = ⟨data⟩ := by
  unfold Matrix.mk? rectangular
  rcases hE : data.isEmpty with _ | _
  · rcases hA : data.all (fun row => row.length = (data.headD []).length) with _ | _
    · simp [hE, hA]
    · simp [hE, hA, eq_comm]
  · simp [hE]

theorem Matrix.mk?_ok_of_valid (m : Matrix) (h : m.valid) :
    Matrix.mk? m.data = .ok m := by
  rw [Matrix.mk?_ok_iff]
  exact ⟨h, rfl⟩

theorem Matrix.valid_of_mk?_ok (data : List (List ℚ)) (m : Matrix)
    (h : Matrix.mk? data = .ok m) : m.valid ∧ m.data = data := by
  rw [Matrix.mk?_ok_iff] at h
  exact ⟨by rw [h.2]; exact h.1, by rw [h.2]⟩

theorem Matrix.rows_pos_of_valid (m : Matrix) (h : m.valid) : 1 ≤ m.rows := by
  rw [Matrix.valid_iff] at h
  have := h.1
  unfold Matrix.rows
  cases hd : m.data with
  | nil => exact absurd hd this
  | cons a l => simp

theorem Matrix.row_length_of_valid (m : Matrix) (h : m.valid)
    (row : List ℚ) (hrow : row ∈ m.data) : row.length = m.cols :=
  ((Matrix.valid_iff m).mp h).2 row hrow


/-! ## General helper lemmas -/

theorem except_bind_ok {ε α β : Type} (a : α) (f : α → Except ε β) :
    (Except.ok a : Except ε α).bind f = f a := rfl

theorem except_bind_error {ε α β : Type} (e : ε) (f : α → Except ε β) :
    (Except.error e : Except ε α).bind f = .error e := rfl

theorem getD_map_range {α : Type} (n i : ℕ) (f : ℕ → α) (d : α) (h : i < n) :
    ((List.range n).map f).getD i d = f i := by
  have hlen : i < ((List.range n).map f).length := by simp [h]
  rw [List.getD_eq_getElem _ _ hlen, List.getElem_map]
  congr 1
  simp

theorem headD_map_range {α : Type} (n : ℕ) (f : ℕ → α) (d : α) (h : 1 ≤ n) :
    ((List.range n).map f).headD d = f 0 := by
  cases hl : (List.range n).map f with
  | nil =>
    have : (0 : ℕ) < ((List.range n).map f).length := by simp; omega
    rw [hl] at this
    simp at this
  | cons a l =>
    have := getD_map_range n 0 f d h
    rw [hl] at this
    simpa using this

theorem sum_map_range (n : ℕ) (f : ℕ → ℚ) :
    ((List.range n).map f).sum = ∑ k ∈ Finset.range n, f k := by
  induction n with
  | zero => simp
  | succ n ih =>
    rw [List.range_succ, List.map_append, List.sum_append, Finset.sum_range_succ, ih]
    simp

/-- A grid built as `[[… for j …] for i in range(n)]` with `n ≥ 1` rows, all
of length `L`, passes the constructor and has the expected dimensions. -/
theorem mk?_map_range (n L : ℕ) (f : ℕ → List ℚ) (hn : 1 ≤ n)
    (hf : ∀ i < n, (f i).length = L) :
    Matrix.mk? ((List.range n).map f) = .ok ⟨(List.range n).map f⟩ ∧
    Matrix.valid ⟨(List.range n).map f⟩ ∧
    Matrix.rows ⟨(List.range n).map f⟩ = n ∧
    Matrix.cols ⟨(List.range n).map f⟩ = L := by
  have hne : (List.range n).map f ≠ [] := by
    simp [List.map_eq_nil_iff, List.range_eq_nil]
    omega
  have hhead : ((List.range n).map f).headD [] = f 0 := headD_map_range n f [] hn
  have hcols : Matrix.cols ⟨(List.range n).map f⟩ = L := by
    unfold Matrix.cols
    simp only [List.isEmpty_iff, hne, if_neg, hhead]
    exact hf 0 hn
  have hvalid : Matrix.valid ⟨(List.range n).map f⟩ := by
    rw [Matrix.valid_iff]
    refine ⟨hne, fun row hrow => ?_⟩
    rw [hcols]
    rcases List.mem_map.mp hrow with ⟨i, hi, rfl⟩
    exact hf i (List.mem_range.mp hi)
  refine ⟨Matrix.mk?_ok_of_valid _ hvalid, hvalid, ?_, hcols⟩
  unfold Matrix.rows
  simp

theorem getD_getD_map_range {i j n L : ℕ} (g : ℕ → ℕ → ℚ) (hi : i < n) (hj : j < L) :
    (((List.range n).map (fun i => (List.range L).map (fun j => g i j))).getD i []).getD j 0
      = g i j := by
  rw [getD_map_range n i _ [] hi, getD_map_range L j _ 0 hj]

theorem Matrix.getD_row_mem (m : Matrix) (i : ℕ) (hi : i < m.rows) :
    m.data.getD i [] ∈ m.data := by
  rw [List.getD_eq_getElem _ _ hi]
  exact List.getElem_mem hi

theorem Matrix.row_len (m : Matrix) (hv : m.valid) (i : ℕ) (hi : i < m.rows) :
    (m.data.getD i []).length = m.cols :=
  m.row_length_of_valid hv _ (m.getD_row_mem i hi)

/-- A grid of the shape `[[g i j for j in range(cols)] for i in range(rows)]`
whose entries agree with a valid matrix `m` equals `m.data`. -/
theorem map_range_eq_data (m : Matrix) (hv : m.valid) (g : ℕ → ℕ → ℚ)
    (he : ∀ i < m.rows, ∀ j < m.cols, g i j = (m.data.getD i []).getD j 0) :
    (List.range m.rows).map (fun i => (List.range m.cols).map (fun j => g i j)) = m.data := by
  apply List.ext_getElem
  · simp [Matrix.rows]
  · intro i h1 h2
    have hi : i < m.rows := h2
    simp only [List.getElem_map, List.getElem_range]
    apply List.ext_getElem
    · have := m.row_len hv i hi
      rw [List.getD_eq_getElem _ _ hi] at this
      simpa using this.symm
    · intro j hj1 hj2
      simp only [List.getElem_map, List.getElem_range]
      have hj : j < m.cols := by
        simpa using hj1
      have := he i hi j hj
      rw [List.getD_eq_getElem _ _ hi, List.getD_eq_getElem _ _ hj2] at this
      exact this

theorem sum_ite_left (n i : ℕ) (hi : i < n) (t : ℕ → ℚ) :
    ∑ k ∈ Finset.range n, (if i = k then (1 : ℚ) else 0) * t k = t i := by
  have : ∀ k, (if i = k then (1 : ℚ) else 0) * t k = if i = k then t k else 0 := by
    intro k
    split <;> simp
  simp only [this]
  rw [Finset.sum_ite_eq]
  simp [hi]

theorem sum_ite_right (n j : ℕ) (hj : j < n) (t : ℕ → ℚ) :
    ∑ k ∈ Finset.range n, t k * (if k = j then (1 : ℚ) else 0) = t j := by
  have : ∀ k, t k * (if k = j then (1 : ℚ) else 0) = if k = j then t k else 0 := by
    intro k
    split <;> simp
  simp only [this]
  rw [Finset.sum_ite_eq']
  simp [hj]

/-! ## Behaviour of the individual operations -/

theorem multiply_matrices_ok (a b : Matrix) (ha : a.valid) (h : a.cols = b.rows) :
    ∃ c, multiply_matrices a b = .ok c ∧ c.valid ∧ c.rows = a.rows ∧ c.cols = b.cols ∧
      ∀ i < a.rows, ∀ j < b.cols,
        (c.data.getD i []).getD j 0 =
          ∑ k ∈ Finset.range a.cols,
            (a.data.getD i []).getD k 0 * (b.data.getD k []).getD j 0 := by
  have hrows := a.rows_pos_of_valid ha
  have hmk := mk?_map_range a.rows b.cols
    (fun i => (List.range b.cols).map (fun j =>
      ((List.range a.cols).map (fun k =>
        (a.data.getD i []).getD k 0 * (b.data.getD k []).getD j 0)).sum))
    hrows (fun i _ => by simp)
  refine ⟨_, ?_, hmk.2.1, hmk.2.2.1, hmk.2.2.2, ?_⟩
  · unfold multiply_matrices
    rw [if_neg (by simp [h])]
    exact hmk.1
  · intro i hi j hj
    rw [getD_getD_map_range _ hi hj, sum_map_range]

theorem create_identity_matrix_ok (size : Int) (h : 1 ≤ size) :
    ∃ I, create_identity_matrix size = .ok I ∧ I.valid ∧
      I.rows = size.toNat ∧ I.cols = size.toNat ∧
      ∀ i < size.toNat, ∀ j < size.toNat,
        (I.data.getD i []).getD j 0 = if i = j then (1 : ℚ) else 0 := by
  have hsz : 1 ≤ size.toNat := by omega
  have hmk := mk?_map_range size.toNat size.toNat
    (fun i => (List.range size.toNat).map (fun j => if i = j then (1 : ℚ) else 0))
    hsz (fun i _ => by simp)
  refine ⟨_, ?_, hmk.2.1, hmk.2.2.1, hmk.2.2.2, ?_⟩
  · unfold create_identity_matrix
    rw [if_neg (by omega)]
    exact hmk.1
  · intro i hi j hj
    rw [getD_getD_map_range _ hi hj]

theorem transpose_ok (m : Matrix) (_hv : m.valid) (hc : 1 ≤ m.cols) :
    ∃ t, m.transpose = .ok t ∧ t.valid ∧ t.rows = m.cols ∧ t.cols = m.rows ∧
      ∀ i < m.cols, ∀ j < m.rows,
        (t.data.getD i []).getD j 0 = (m.data.getD j []).getD i 0 := by
  have hmk := mk?_map_range m.cols m.rows
    (fun i => (List.range m.rows).map (fun j => (m.data.getD j []).getD i 0))
    hc (fun i _ => by simp)
  refine ⟨_, ?_, hmk.2.1, hmk.2.2.1, hmk.2.2.2, ?_⟩
  · unfold Matrix.transpose
    exact hmk.1
  · intro i hi j hj
    rw [getD_getD_map_range _ hi hj]

theorem add_ok (a b : Matrix) (ha : a.valid) (hr : a.rows = b.rows) (hc : a.cols = b.cols) :
    ∃ c, a.add b = .ok c ∧ c.valid ∧ c.rows = a.rows ∧ c.cols = a.cols := by
  have hrows := a.rows_pos_of_valid ha
  have hmk := mk?_map_range a.rows a.cols
    (fun i => (List.range a.cols).map (fun j =>
      (a.data.getD i []).getD j 0 + (b.data.getD i []).getD j 0))
    hrows (fun i _ => by simp)
  refine ⟨_, ?_, hmk.2.1, hmk.2.2.1, hmk.2.2.2⟩
  unfold Matrix.add
  rw [if_neg (by simp [hr, hc])]
  exact hmk.1

theorem scale_ok (a : Matrix) (k : ℚ) (ha : a.valid) :
    ∃ c, a.scale k = .ok c ∧ c.valid ∧ c.rows = a.rows ∧ c.cols = a.cols := by
  have hrows := a.rows_pos_of_valid ha
  have hmk := mk?_map_range a.rows a.cols
    (fun i => (List.range a.cols).map (fun j => (a.data.getD i []).getD j 0 * k))
    hrows (fun i _ => by simp)
  refine ⟨_, ?_, hmk.2.1, hmk.2.2.1, hmk.2.2.2⟩
  unfold Matrix.scale
  exact hmk.1

/-! ## The determinant: relating the source recursion to the spec's formula -/

theorem map_range_getD_take (row : List ℚ) (k : ℕ) (hk : k ≤ row.length) :
    (List.range k).map (fun j => row.getD j 0) = row.take k := by
  apply List.ext_getElem
  · simp [hk]
  · intro i h1 h2
    have hik : i < k := by simpa using h1
    simp only [List.getElem_map, List.getElem_range, List.getElem_take]
    rw [List.getD_eq_getElem _ _ (lt_of_lt_of_le hik hk)]

theorem map_range_getD_drop (row : List ℚ) (s : ℕ) :
    (List.range (row.length - s)).map (fun k => row.getD (s + k) 0) = row.drop s := by
  apply List.ext_getElem
  · simp
  · intro i h1 h2
    have hi : i < row.length - s := by simpa using h1
    simp only [List.getElem_map, List.getElem_range, List.getElem_drop]
    rw [List.getD_eq_getElem _ _ (by omega : s + i < row.length)]

/-- The source builds each submatrix row as
`[row[j] for j in range(n) if j != col]`; for a row of length `n` this is
exactly the spec's "remove column `col`". -/
theorem filter_range_map_eq_eraseIdx (row : List ℚ) (n col : ℕ)
    (hlen : row.length = n) (hcol : col < n) :
    ((List.range n).filter (fun j => j ≠ col)).map (fun j => row.getD j 0) =
      row.eraseIdx col := by
  subst hlen
  have hsplit : List.range row.length =
      List.range (col + 1) ++ (List.range (row.length - (col + 1))).map ((col + 1) + ·) := by
    rw [← List.range_add]
    congr 1
    omega
  rw [hsplit, List.filter_append]
  have h1 : (List.range (col + 1)).filter (fun j => j ≠ col) = List.range col := by
    rw [List.range_succ, List.filter_append]
    have : (List.range col).filter (fun j => j ≠ col) = List.range col := by
      apply List.filter_eq_self.mpr
      intro x hx
      have : x < col := List.mem_range.mp hx
      simp
      omega
    rw [this]
    simp
  have h2 : ((List.range (row.length - (col + 1))).map ((col + 1) + ·)).filter
      (fun j => j ≠ col) = (List.range (row.length - (col + 1))).map ((col + 1) + ·) := by
    apply List.filter_eq_self.mpr
    intro x hx
    rcases List.mem_map.mp hx with ⟨k, _, rfl⟩
    simp
    omega
  rw [h1, h2, List.map_append, List.map_map]
  rw [map_range_getD_take row col (by omega)]
  have : ((fun j => row.getD j 0) ∘ ((col + 1) + ·)) = fun k => row.getD ((col + 1) + k) 0 := rfl
  rw [this, map_range_getD_drop row (col + 1), List.eraseIdx_eq_take_drop_succ]

/-- For a valid matrix, the source's submatrix grid equals the spec's minor. -/
theorem subgrid_eq_minor (m : Matrix) (hv : m.valid) (col : ℕ) (hcol : col < m.cols) :
    (m.data.drop 1).map (fun row =>
        ((List.range m.cols).filter (fun j => j ≠ col)).map (fun j => row.getD j 0)) =
      (m.data.drop 1).map (fun row => row.eraseIdx col) := by
  apply List.map_congr_left
  intro row hrow
  exact filter_range_map_eq_eraseIdx row m.cols col
    (m.row_length_of_valid hv row (List.mem_of_mem_drop hrow)) hcol

theorem valid_of_all_rows (data : List (List ℚ)) (L : ℕ) (hne : data ≠ [])
    (h : ∀ row ∈ data, row.length = L) :
    Matrix.valid ⟨data⟩ ∧ Matrix.cols ⟨data⟩ = L := by
  have hcols : Matrix.cols ⟨data⟩ = L := by
    unfold Matrix.cols
    cases data with
    | nil => exact absurd rfl hne
    | cons a t =>
      simp only [List.isEmpty_cons, if_neg Bool.false_ne_true, List.headD_cons]
      exact h a (by simp)
  refine ⟨?_, hcols⟩
  rw [Matrix.valid_iff]
  exact ⟨hne, fun row hrow => by rw [hcols]; exact h row hrow⟩

/-- The spec's minor of a valid square matrix of order `n ≥ 3` is a valid
square matrix of order `n - 1`. -/
theorem minor_valid (m : Matrix) (hv : m.valid) (hsq : m.rows = m.cols)
    (h3 : 3 ≤ m.rows) (col : ℕ) (hcol : col < m.cols) :
    Matrix.valid ⟨(m.data.drop 1).map (fun row => row.eraseIdx col)⟩ ∧
    Matrix.rows ⟨(m.data.drop 1).map (fun row => row.eraseIdx col)⟩ = m.rows - 1 ∧
    Matrix.cols ⟨(m.data.drop 1).map (fun row => row.eraseIdx col)⟩ = m.cols - 1 := by
  have hrows : Matrix.rows ⟨(m.data.drop 1).map (fun row => row.eraseIdx col)⟩ = m.rows - 1 := by
    unfold Matrix.rows
    simp [Matrix.rows]
  have hne : (m.data.drop 1).map (fun row => row.eraseIdx col) ≠ [] := by
    have h3' : 3 ≤ m.data.length := h3
    intro hc
    have := congrArg List.length hc
    simp at this
    omega
  have hall : ∀ row ∈ (m.data.drop 1).map (fun row => row.eraseIdx col),
      row.length = m.cols - 1 := by
    intro row hrow
    rcases List.mem_map.mp hrow with ⟨r, hr, rfl⟩
    have hlen : r.length = m.cols :=
      m.row_length_of_valid hv r (List.mem_of_mem_drop hr)
    have := List.length_eraseIdx_add_one (show col < r.length by omega)
    omega
  have := valid_of_all_rows _ _ hne hall
  exact ⟨this.1, hrows, this.2⟩

/-- Folding the source's loop body over a column list on which every step
succeeds yields the accumulated signed-cofactor sum. -/
theorem foldl_ok_of_step (f : Except MatrixError ℚ → ℕ → Except MatrixError ℚ)
    (g : ℕ → ℚ) (L : List ℕ)
    (hstep : ∀ col ∈ L, ∀ d : ℚ, f (.ok d) col = .ok (d + g col)) :
    ∀ a : ℚ, L.foldl f (.ok a) = .ok (a + (L.map g).sum) := by
  induction L with
  | nil =>
    intro a
    simp
  | cons c rest ih =>
    intro a
    rw [List.foldl_cons, hstep c (by simp) a,
      ih (fun col hc d => hstep col (by simp [hc]) d) (a + g c)]
    congr 1
    simp [add_assoc]

/-- Core refinement: on a valid square matrix, the source's recursion (with
enough fuel) computes exactly the spec's cofactor-expansion formula. -/
theorem detAux_eq_detSpecAux (fuel : ℕ) :
    ∀ (m : Matrix), m.valid → m.rows = m.cols → m.rows ≤ fuel →
      detAux fuel m = .ok (detSpecAux m.rows m.data) := by
  induction fuel with
  | zero =>
    intro m hv _ hle
    exact absurd (m.rows_pos_of_valid hv) (by omega)
  | succ fuel' ih =>
    intro m hv hsq hle
    have hpos := m.rows_pos_of_valid hv
    by_cases h1 : m.rows = 1
    · rw [detAux, if_neg (not_not.mpr hsq), if_pos h1, h1]
      rfl
    · by_cases h2 : m.rows = 2
      · rw [detAux, if_neg (not_not.mpr hsq), if_neg h1, if_pos h2, h2]
        rfl
      · have h3 : 3 ≤ m.rows := by omega
        obtain ⟨k, hk⟩ : ∃ k, m.rows = k + 3 := ⟨m.rows - 3, by omega⟩
        rw [detAux, if_neg (not_not.mpr hsq), if_neg h1, if_neg h2]
        have hstep : ∀ col ∈ List.range m.cols, ∀ d : ℚ,
            detStep (detAux fuel') m (.ok d) col =
            .ok (d + (-1 : ℚ) ^ col * (m.data.headD []).getD col 0 *
              detSpecAux (k + 2) ((m.data.drop 1).map (fun row => row.eraseIdx col))) := by
          intro col hcol d
          have hcol' : col < m.cols := List.mem_range.mp hcol
          have hgrid := subgrid_eq_minor m hv col hcol'
          have hmv := minor_valid m hv hsq h3 col hcol'
          have hdet : detAux fuel' ⟨(m.data.drop 1).map (fun row => row.eraseIdx col)⟩ =
              .ok (detSpecAux (k + 2)
                ((m.data.drop 1).map (fun row => row.eraseIdx col))) := by
            have hsq' : Matrix.rows ⟨(m.data.drop 1).map (fun row => row.eraseIdx col)⟩ =
                Matrix.cols ⟨(m.data.drop 1).map (fun row => row.eraseIdx col)⟩ := by
              rw [hmv.2.1, hmv.2.2, hsq]
            have := ih _ hmv.1 hsq' (by rw [hmv.2.1]; omega)
            rw [hmv.2.1, hk] at this
            simpa using this
          have hmk : Matrix.mk?
              ((m.data.drop 1).map (fun row => row.eraseIdx col)) =
              .ok ⟨(m.data.drop 1).map (fun row => row.eraseIdx col)⟩ :=
            Matrix.mk?_ok_of_valid _ hmv.1
          simp only [detStep, except_bind_ok, hgrid, hmk, hdet]
          rcases Nat.even_or_odd col with he | ho
          · rw [if_pos (Nat.even_iff.mp he), Even.neg_one_pow he]
            ring_nf
          · rw [if_neg (by rw [Nat.odd_iff.mp ho]; omega), Odd.neg_one_pow ho]
            ring_nf
        rw [foldl_ok_of_step _ _ _ hstep 0]
        rw [← hsq, hk]
        show _ = Except.ok (detSpecAux (k + 3) m.data)
        rw [detSpecAux]
        congr 1
        rw [zero_add]

theorem detAux_nonsquare (fuel : ℕ) (m : Matrix) (h : m.rows ≠ m.cols) :
    detAux fuel m =
      .error (.shapeError "Determinant can only be calculated for square matrices") := by
  cases fuel with
  | zero => rw [detAux, if_pos h]
  | succ f => rw [detAux, if_pos h]

theorem matrix_determinant_ok (m : Matrix) (hv : m.valid) (hsq : m.rows = m.cols) :
    matrix_determinant m = .ok (detSpec m.data) :=
  detAux_eq_detSpecAux m.rows m hv hsq le_rfl

theorem transpose_zero_cols (m : Matrix) (hc : m.cols = 0) :
    m.transpose = .error (.shapeError "Matrix cannot be empty") := by
  unfold Matrix.transpose
  rw [hc]
  rfl

/-- Two valid matrices of equal shape and equal entries are equal. -/
theorem Matrix.eq_of_elems (c m : Matrix) (hcv : c.valid) (hmv : m.valid)
    (hr : c.rows = m.rows) (hc : c.cols = m.cols)
    (he : ∀ i < m.rows, ∀ j < m.cols,
      (c.data.getD i []).getD j 0 = (m.data.getD i []).getD j 0) : c = m := by
  have hdata : c.data = m.data := by
    apply List.ext_getElem
    · exact hr
    · intro i h1 h2
      have hi : i < m.rows := h2
      apply List.ext_getElem
      · have hc1 := c.row_len hcv i (by omega)
        have hm1 := m.row_len hmv i hi
        rw [List.getD_eq_getElem _ _ h1] at hc1
        rw [List.getD_eq_getElem _ _ h2] at hm1
        rw [hc1, hm1, hc]
      · intro j hj1 hj2
        have hj : j < m.cols := by
          have hm1 := m.row_len hmv i hi
          rw [List.getD_eq_getElem _ _ h2] at hm1
          omega
        have := he i hi j hj
        rw [List.getD_eq_getElem _ _ h1, List.getD_eq_getElem _ _ h2,
          List.getD_eq_getElem _ _ hj1, List.getD_eq_getElem _ _ hj2] at this
        exact this
  cases c
  cases m
  simpa using hdata

/-! ## The claims -/

/-- C1: `determinant(m)` fails with `ShapeError` when `m.rows() != m.cols()`;
for every valid square `m` it returns exactly the spec's formula `detSpec`:
the single element for 1×1, `a*d - b*c` for 2×2, and for `n ≥ 3` the sum
over `col` of `(-1)^col * m[0][col] * determinant(minor)` with the minor
removing row 0 and column `col`. -/
theorem matrix_determinant_meets_spec (m : Matrix) (hv : m.valid) :
    (m.rows ≠ m.cols → ∃ s, matrix_determinant m = .error (.shapeError s)) ∧
    (m.rows = m.cols → matrix_determinant m = .ok (detSpec m.data)) :=
  ⟨fun h => ⟨_, detAux_nonsquare m.rows m h⟩, fun h => matrix_determinant_ok m hv h⟩

theorem matrix_determinant_meets_spec_witness :
    (matrix_determinant M33 = .ok (detSpec M33.data) ∧ detSpec M33.data = 0) ∧
    (∃ s, matrix_determinant M23 = .error (.shapeError s)) :=
  ⟨⟨(matrix_determinant_meets_spec M33 (by decide)).2 rfl,
    by simp [M33, detSpec, detSpecAux, List.range_succ]; norm_num⟩,
   (matrix_determinant_meets_spec M23 (by decide)).1 (by decide)⟩

/-- C2: `multiply(a, b)` fails with `ShapeError` when
`a.cols() != b.rows()`; otherwise the result has shape
`(a.rows(), b.cols())` and `result[i][j]` is the sum over `k` in
`[0, a.cols())` of `a[i][k] * b[k][j]`. -/
theorem multiply_matrices_meets_spec (a b : Matrix) (ha : a.valid) :
    (a.cols ≠ b.rows → ∃ s, multiply_matrices a b = .error (.shapeError s)) ∧
    (a.cols = b.rows → ∃ c, multiply_matrices a b = .ok c ∧
      c.rows = a.rows ∧ c.cols = b.cols ∧
      ∀ i < a.rows, ∀ j < b.cols,
        (c.data.getD i []).getD j 0 =
          ∑ k ∈ Finset.range a.cols,
            (a.data.getD i []).getD k 0 * (b.data.getD k []).getD j 0) := by
  constructor
  · intro h
    refine ⟨"Cannot multiply matrices: number of columns in first matrix must equal number of rows in second matrix", ?_⟩
    unfold multiply_matrices
    rw [if_pos h]
  · intro h
    obtain ⟨c, h1, _, h3, h4, h5⟩ := multiply_matrices_ok a b ha h
    exact ⟨c, h1, h3, h4, h5⟩

theorem multiply_matrices_meets_spec_witness :
    ∃ c, multiply_matrices M22 B22 = .ok c ∧
      c.rows = M22.rows ∧ c.cols = B22.cols ∧
      ∀ i < M22.rows, ∀ j < B22.cols,
        (c.data.getD i []).getD j 0 =
          ∑ k ∈ Finset.range M22.cols,
            (M22.data.getD i []).getD k 0 * (B22.data.getD k []).getD j 0 :=
  (multiply_matrices_meets_spec M22 B22 (by decide)).2 rfl

/-- C3 counterexample: the claim "transpose never fails on a valid Matrix"
is false — `Matrix([[]])` is accepted by the constructor (one row, zero
columns), but its transpose builds the empty grid `[]` and the `Matrix`
constructor then raises. -/
theorem transpose_total_counterexample :
    Matrix.valid Mrow0 ∧
    Matrix.transpose Mrow0 = .error (.shapeError "Matrix cannot be empty") :=
  ⟨by decide, rfl⟩

/-- C3 (amended): for every valid Matrix with at least one column,
`transpose()` succeeds and returns a Matrix of shape `(cols, rows)` with
`result[i][j] = m[j][i]`; for a valid Matrix with zero columns it fails
with `ShapeError`. -/
theorem transpose_meets_spec_amended (m : Matrix) (hv : m.valid) :
    (1 ≤ m.cols → ∃ t, m.transpose = .ok t ∧ t.rows = m.cols ∧ t.cols = m.rows ∧
      ∀ i < m.cols, ∀ j < m.rows,
        (t.data.getD i []).getD j 0 = (m.data.getD j []).getD i 0) ∧
    (m.cols = 0 → ∃ s, m.transpose = .error (.shapeError s)) := by
  constructor
  · intro hc
    obtain ⟨t, h1, _, h3, h4, h5⟩ := transpose_ok m hv hc
    exact ⟨t, h1, h3, h4, h5⟩
  · intro hc
    exact ⟨_, transpose_zero_cols m hc⟩

theorem transpose_meets_spec_amended_witness :
    ∃ t, Matrix.transpose M23 = .ok t ∧
      t.rows = M23.cols ∧ t.cols = M23.rows ∧
      ∀ i < M23.cols, ∀ j < M23.rows,
        (t.data.getD i []).getD j 0 = (M23.data.getD j []).getD i 0 :=
  (transpose_meets_spec_amended M23 (by decide)).1 (by decide)

/-- C4 counterexample: the right-identity law fails for the valid matrix
`Matrix([[]])` — its column count is 0, so `identity(m.cols())` itself
fails with `InvalidSizeError` and `m.multiply(identity(m.cols()))` cannot
return `m`. -/
theorem identity_right_unit_counterexample :
    Matrix.valid Mrow0 ∧
    create_identity_matrix (Mrow0.cols : Int) =
      .error (.invalidSizeError "Matrix size must be at least 1") :=
  ⟨by decide, rfl⟩

/-- C4 (amended): `identity(m.rows()).multiply(m) == m` holds for every
valid Matrix `m`; `m.multiply(identity(m.cols())) == m` holds whenever `m`
has at least one column (for zero columns, `identity(0)` fails). -/
theorem identity_unit_laws (m : Matrix) (hv : m.valid) :
    (∃ I, create_identity_matrix (m.rows : Int) = .ok I ∧
      multiply_matrices I m = .ok m) ∧
    (1 ≤ m.cols → ∃ I, create_identity_matrix (m.cols : Int) = .ok I ∧
      multiply_matrices m I = .ok m) := by
  constructor
  · have hr := m.rows_pos_of_valid hv
    obtain ⟨I, hIok, hIv, hIr, hIc, hIe⟩ :=
      create_identity_matrix_ok (m.rows : Int) (by exact_mod_cast hr)
    rw [Int.toNat_natCast] at hIr hIc hIe
    obtain ⟨c, hcok, hcv, hcr, hcc, hce⟩ :=
      multiply_matrices_ok I m hIv (by rw [hIc])
    have hcm : c = m := by
      apply Matrix.eq_of_elems c m hcv hv (by rw [hcr, hIr]) hcc
      intro i hi j hj
      rw [hce i (by rw [hIr]; exact hi) j hj, hIc]
      have hsummand : ∀ k ∈ Finset.range m.rows,
          (I.data.getD i []).getD k 0 * (m.data.getD k []).getD j 0 =
          (if i = k then (1 : ℚ) else 0) * (m.data.getD k []).getD j 0 := by
        intro k hk
        rw [hIe i hi k (Finset.mem_range.mp hk)]
      rw [Finset.sum_congr rfl hsummand,
        sum_ite_left m.rows i hi (fun k => (m.data.getD k []).getD j 0)]
    exact ⟨I, hIok, by rw [hcm] at hcok; exact hcok⟩
  · intro hc
    obtain ⟨I, hIok, hIv, hIr, hIc, hIe⟩ :=
      create_identity_matrix_ok (m.cols : Int) (by exact_mod_cast hc)
    rw [Int.toNat_natCast] at hIr hIc hIe
    obtain ⟨c, hcok, hcv, hcr, hcc, hce⟩ :=
      multiply_matrices_ok m I hv (by rw [hIr])
    have hcm : c = m := by
      apply Matrix.eq_of_elems c m hcv hv hcr (by rw [hcc, hIc])
      intro i hi j hj
      rw [hce i hi j (by rw [hIc]; exact hj)]
      have hsummand : ∀ k ∈ Finset.range m.cols,
          (m.data.getD i []).getD k 0 * (I.data.getD k []).getD j 0 =
          (m.data.getD i []).getD k 0 * (if k = j then (1 : ℚ) else 0) := by
        intro k hk
        rw [hIe k (Finset.mem_range.mp hk) j hj]
      rw [Finset.sum_congr rfl hsummand,
        sum_ite_right m.cols j hj (fun k => (m.data.getD i []).getD k 0)]
    exact ⟨I, hIok, by rw [hcm] at hcok; exact hcok⟩

theorem identity_unit_laws_witness :
    (∃ I, create_identity_matrix (M23.rows : Int) = .ok I ∧
      multiply_matrices I M23 = .ok M23) ∧
    (∃ I, create_identity_matrix (M23.cols : Int) = .ok I ∧
      multiply_matrices M23 I = .ok M23) :=
  ⟨(identity_unit_laws M23 (by decide)).1,
   (identity_unit_laws M23 (by decide)).2 (by decide)⟩

/-- C5 counterexample: the double-transpose law fails for the valid matrix
`Matrix([[]])` because already the first transpose raises `ShapeError`, so
no value `m.transpose().transpose()` exists at all. -/
theorem double_transpose_counterexample :
    Matrix.valid Mrow0 ∧
    ¬ ∃ t1 t2, Matrix.transpose Mrow0 = .ok t1 ∧
      Matrix.transpose t1 = .ok t2 ∧ t2 = Mrow0 := by
  refine ⟨by decide, ?_⟩
  rintro ⟨t1, t2, h1, -, -⟩
  rw [show Matrix.transpose Mrow0 =
    .error (.shapeError "Matrix cannot be empty") from rfl] at h1
  exact Except.noConfusion h1

/-- C5 (amended): for every valid Matrix with at least one column,
transposing twice succeeds and returns the original matrix, equal in shape
and element values. -/
theorem double_transpose_id (m : Matrix) (hv : m.valid) (hc : 1 ≤ m.cols) :
    ∃ t1 t2, m.transpose = .ok t1 ∧ t1.transpose = .ok t2 ∧ t2 = m := by
  obtain ⟨t1, h1, h1v, h1r, h1c, h1e⟩ := transpose_ok m hv hc
  have hpos := m.rows_pos_of_valid hv
  obtain ⟨t2, h2, h2v, h2r, h2c, h2e⟩ := transpose_ok t1 h1v (by omega)
  refine ⟨t1, t2, h1, h2, ?_⟩
  apply Matrix.eq_of_elems t2 m h2v hv (by omega) (by omega)
  intro i hi j hj
  rw [h2e i (by omega) j (by omega), h1e j hj i hi]

theorem double_transpose_id_witness :
    ∃ t1 t2, Matrix.transpose M22 = .ok t1 ∧
      Matrix.transpose t1 = .ok t2 ∧ t2 = M22 :=
  double_transpose_id M22 (by decide) (by decide)

/-- C6: Matrix construction fails with `ShapeError` if the grid has zero
rows, or if some row's length differs from the first row's; in particular
`Matrix([[1,2],[3]])` fails with `ShapeError`. -/
theorem matrix_construction_shape_errors (data : List (List ℚ)) :
    (data = [] → Matrix.mk? data = .error (.shapeError "Matrix cannot be empty")) ∧
    ((∃ row ∈ data, row.length ≠ (data.headD []).length) →
      ∃ s, Matrix.mk? data = .error (.shapeError s)) ∧
    Matrix.mk? [[1, 2], [3]] = .error (.shapeError "All rows must have the same length") := by
  refine ⟨?_, ?_, rfl⟩
  · rintro rfl
    rfl
  · rintro ⟨row, hrow, hne⟩
    have hall : data.all (fun row => row.length = (data.headD []).length) = false := by
      rw [List.all_eq_false]
      exact ⟨row, hrow, by simpa using hne⟩
    by_cases hE : data.isEmpty
    · exact ⟨"Matrix cannot be empty", by unfold Matrix.mk?; rw [if_pos hE]⟩
    · exact ⟨"All rows must have the same length",
        by unfold Matrix.mk?; rw [if_neg hE, if_neg (by rw [hall]; exact Bool.false_ne_true)]⟩

theorem matrix_construction_shape_errors_witness :
    Matrix.mk? ([] : List (List ℚ)) = .error (.shapeError "Matrix cannot be empty") ∧
    (∃ s, Matrix.mk? [[1, 2], [3]] = .error (.shapeError s)) :=
  ⟨(matrix_construction_shape_errors []).1 rfl,
   (matrix_construction_shape_errors [[1, 2], [3]]).2.1 ⟨[3], by decide, by decide⟩⟩

/-- C7: `identity(size)` fails with `InvalidSizeError` for every
`size <= 0`, and for `size >= 1` returns the `size x size` matrix with 1 on
the diagonal and 0 elsewhere. -/
theorem create_identity_matrix_meets_spec (size : Int) :
    (size ≤ 0 → create_identity_matrix size =
      .error (.invalidSizeError "Matrix size must be at least 1")) ∧
    (1 ≤ size → ∃ I, create_identity_matrix size = .ok I ∧
      I.rows = size.toNat ∧ I.cols = size.toNat ∧
      ∀ i < size.toNat, ∀ j < size.toNat,
        (I.data.getD i []).getD j 0 = if i = j then (1 : ℚ) else 0) := by
  constructor
  · intro h
    unfold create_identity_matrix
    rw [if_pos (by omega)]
  · intro h
    obtain ⟨I, h1, _, h3, h4, h5⟩ := create_identity_matrix_ok size h
    exact ⟨I, h1, h3, h4, h5⟩

theorem create_identity_matrix_meets_spec_witness :
    create_identity_matrix (-1) =
      .error (.invalidSizeError "Matrix size must be at least 1") ∧
    ∃ I, create_identity_matrix 3 = .ok I ∧
      I.rows = (3 : Int).toNat ∧ I.cols = (3 : Int).toNat ∧
      ∀ i < (3 : Int).toNat, ∀ j < (3 : Int).toNat,
        (I.data.getD i []).getD j 0 = if i = j then (1 : ℚ) else 0 :=
  ⟨(create_identity_matrix_meets_spec (-1)).1 (by norm_num),
   (create_identity_matrix_meets_spec 3).2 (by norm_num)⟩

/-- C8: the determinant recursion terminates with a result on every valid
square matrix: the embedding is total by structural recursion (each
recursive call is on the `(n-1)×(n-1)` minor), and on valid square input it
returns a value rather than an error. -/
theorem matrix_determinant_terminates (m : Matrix) (hv : m.valid)
    (hsq : m.rows = m.cols) : ∃ v : ℚ, matrix_determinant m = .ok v :=
  ⟨detSpec m.data, matrix_determinant_ok m hv hsq⟩

theorem matrix_determinant_terminates_witness :
    ∃ v : ℚ, matrix_determinant M33 = .ok v :=
  matrix_determinant_terminates M33 (by decide) rfl

/-- C9: the constructor accepts a grid of `n ≥ 1` rows that all have length
zero — e.g. `Matrix([[]])` — and the resulting valid Matrix reports
`rows == n` and `cols() == 0`. -/
theorem matrix_construction_accepts_zero_cols (n : ℕ) (h : 1 ≤ n) :
    Matrix.mk? (List.replicate n ([] : List ℚ)) = .ok ⟨List.replicate n []⟩ ∧
    Matrix.valid ⟨List.replicate n ([] : List ℚ)⟩ ∧
    Matrix.rows ⟨List.replicate n ([] : List ℚ)⟩ = n ∧
    Matrix.cols ⟨List.replicate n ([] : List ℚ)⟩ = 0 := by
  have hne : List.replicate n ([] : List ℚ) ≠ [] := by
    intro hc
    have := congrArg List.length hc
    simp at this
    omega
  have hall : ∀ row ∈ List.replicate n ([] : List ℚ), row.length = 0 :=
    fun row hrow => by rw [List.eq_of_mem_replicate hrow]; rfl
  have hv0 := valid_of_all_rows _ 0 hne hall
  refine ⟨Matrix.mk?_ok_of_valid _ hv0.1, hv0.1, ?_, hv0.2⟩
  unfold Matrix.rows
  simp

theorem matrix_construction_accepts_zero_cols_witness :
    Matrix.mk? (List.replicate 1 ([] : List ℚ)) = .ok ⟨List.replicate 1 []⟩ ∧
    Matrix.valid ⟨List.replicate 1 ([] : List ℚ)⟩ ∧
    Matrix.rows ⟨List.replicate 1 ([] : List ℚ)⟩ = 1 ∧
    Matrix.cols ⟨List.replicate 1 ([] : List ℚ)⟩ = 0 :=
  matrix_construction_accepts_zero_cols 1 (by decide)

/-- C10: every Matrix-returning operation, under its precondition, produces
a matrix satisfying the constructor invariant (at least one row, all rows of
equal length): add on equal shapes, scale with any scalar, multiply on
compatible shapes, identity for `size >= 1`, transpose with at least one
column. -/
theorem operations_return_valid_matrices (a b : Matrix) (k : ℚ) (size : Int)
    (ha : a.valid) (_hb : b.valid) :
    (a.rows = b.rows → a.cols = b.cols → ∃ c, a.add b = .ok c ∧ c.valid) ∧
    (∃ c, a.scale k = .ok c ∧ c.valid) ∧
    (a.cols = b.rows → ∃ c, multiply_matrices a b = .ok c ∧ c.valid) ∧
    (1 ≤ size → ∃ c, create_identity_matrix size = .ok c ∧ c.valid) ∧
    (1 ≤ a.cols → ∃ c, a.transpose = .ok c ∧ c.valid) := by
  refine ⟨?_, ?_, ?_, ?_, ?_⟩
  · intro hr hc
    obtain ⟨c, h1, h2, _, _⟩ := add_ok a b ha hr hc
    exact ⟨c, h1, h2⟩
  · obtain ⟨c, h1, h2, _, _⟩ := scale_ok a k ha
    exact ⟨c, h1, h2⟩
  · intro h
    obtain ⟨c, h1, h2, _, _, _⟩ := multiply_matrices_ok a b ha h
    exact ⟨c, h1, h2⟩
  · intro h
    obtain ⟨c, h1, h2, _, _, _⟩ := create_identity_matrix_ok size h
    exact ⟨c, h1, h2⟩
  · intro h
    obtain ⟨c, h1, h2, _, _, _⟩ := transpose_ok a ha h
    exact ⟨c, h1, h2⟩

theorem operations_return_valid_matrices_witness :
    (∃ c, Matrix.add M22 B22 = .ok c ∧ c.valid) ∧
    (∃ c, Matrix.scale M22 2 = .ok c ∧ c.valid) ∧
    (∃ c, multiply_matrices M22 B22 = .ok c ∧ c.valid) ∧
    (∃ c, create_identity_matrix 3 = .ok c ∧ c.valid) ∧
    (∃ c, Matrix.transpose M22 = .ok c ∧ c.valid) := by
  have h := operations_return_valid_matrices M22 B22 2 3 (by decide) (by decide)
  exact ⟨h.1 rfl rfl, h.2.1, h.2.2.1 rfl, h.2.2.2.1 (by norm_num), h.2.2.2.2 (by decide)⟩

end TypedApp
